import Mathlib

/-!
Verification of the autobuild-orchestrator queue manager and worktree manager
(Go sources: internal/queue, internal/worktree, internal/api, internal/models).

The Go code is shallowly embedded: the shared mutable state of each manager
becomes an explicit state record, each exported operation becomes a state
transformer, and the asynchronous pieces (the per-job execution goroutine and
the callback channel) become explicit events of a small-step operation type.
Machine integers are modelled as Int (the Go counters) or Nat (sizes, clocks);
timestamps are ticks of a logical clock that advances once per operation.
-/

/-! ## Data model (internal/models/models.go) -/

/-- JobStatus, from models.go. -/
inductive JobStatus where
  | pending
  | queued
  | dispatched
  | running
  | completed
  | failed
  | cancelled
deriving DecidableEq, Repr

/-- Job, from models.go.  `createdAt` doubles as the submission sequence
number: the logical clock is bumped once per operation, so later submissions
always carry a strictly larger `createdAt`. -/
structure Job where
  id : String
  ticketID : String
  projectID : String
  priority : Int
  status : JobStatus
  worktreeID : String
  prompt : String
  branchName : String
  baseBranch : String
  errorMessage : String
  createdAt : Nat
  dispatchedAt : Option Nat
  startedAt : Option Nat
  completedAt : Option Nat
deriving DecidableEq, Repr

/-- CreateJobRequest, from models.go (the fields the queue reads). -/
structure CreateJobRequest where
  ticketID : String
  projectID : String
  priority : Int
  prompt : String
  baseBranch : String
deriving DecidableEq, Repr

/-- JobResult, from models.go (the fields handleResult reads). -/
structure JobResult where
  ticketID : String
  status : String
  error : String
deriving DecidableEq, Repr

/-- CreateJobResponse, from models.go. -/
structure CreateJobResponse where
  job : Job
  position : Int
  message : String
deriving DecidableEq, Repr

/-- QueueConfig (config.go): the fields the queue manager uses. -/
structure QueueConfig where
  maxParallelJobs : Nat
deriving DecidableEq, Repr

/-! ## Queue manager state (queue.Manager) -/

/-- The mutable state of queue.Manager.  `jobs` is the job table (the Go map,
in insertion order), `queue` the priority-ordered pending list.  In Go the
queue holds pointers into the job table; here every mutation of a job goes
through `updateJob`, which rewrites the record in both lists, preserving that
aliasing.  `workersUsed` is the number of occupied slots of the worker
semaphore, and `inflight` the set of jobs whose executeJob goroutine has been
spawned but has not returned yet. -/
structure QMState where
  maxParallelJobs : Nat
  jobs : List Job
  queue : List Job
  activeJobs : String → Int
  workersUsed : Nat
  inflight : List String
  clock : Nat

/-- NewManager: empty state. -/
def initQM (cfg : QueueConfig) : QMState :=
  { maxParallelJobs := cfg.maxParallelJobs
    jobs := []
    queue := []
    activeJobs := fun _ => 0
    workersUsed := 0
    inflight := []
    clock := 0 }

/-- Mutate the job with the given id wherever it is referenced (job table and
pending list), mirroring Go's pointer aliasing between `m.jobs` and `m.queue`. -/
def updateJob (s : QMState) (id : String) (f : Job → Job) : QMState :=
  { s with
    jobs := s.jobs.map fun j => if j.id = id then f j else j
    queue := s.queue.map fun j => if j.id = id then f j else j }

/-- Look a job up in the job table (Go: `m.jobs[jobID]`). -/
def findJob (s : QMState) (id : String) : Option Job :=
  s.jobs.find? fun j => j.id == id

/-- insertByPriority (queue.go): insert at the first index whose entry has a
strictly smaller priority; equal priorities keep arrival order. -/
def insertByPriority (q : List Job) (job : Job) : List Job :=
  match q with
  | [] => [job]
  | x :: xs => if job.priority > x.priority then job :: x :: xs
               else x :: insertByPriority xs job

/-- removeFromQueue (queue.go): drop the first entry with the given id. -/
def removeFromQueue (q : List Job) (jobID : String) : List Job :=
  match q with
  | [] => []
  | x :: xs => if x.id = jobID then xs else x :: removeFromQueue xs jobID

/-- getQueuePosition (queue.go): 1-based position, -1 when absent. -/
def getQueuePosition (q : List Job) (jobID : String) : Int :=
  match q with
  | [] => -1
  | x :: xs =>
      if x.id = jobID then 1
      else
        let p := getQueuePosition xs jobID
        if p = -1 then -1 else p + 1

/-- getProjectMaxParallel (queue.go): a TODO database lookup that currently
returns the constant default 3. -/
def getProjectMaxParallel (_projectID : String) : Int := 3

/-- The job literal built by Submit (queue.go).  Only well-defined when the
ticket id has at least 8 characters; `submit` models the shorter case as a
panic. -/
def mkJob (s : QMState) (req : CreateJobRequest) (newId : String) : Job :=
  { id := newId
    ticketID := req.ticketID
    projectID := req.projectID
    priority := req.priority
    status := JobStatus.pending
    worktreeID := ""
    prompt := req.prompt
    branchName := "autobuild/ticket-" ++ req.ticketID.take 8
    baseBranch := req.baseBranch
    errorMessage := ""
    createdAt := s.clock
    dispatchedAt := none
    startedAt := none
    completedAt := none }

/-- Submit (queue.go).  Go evaluates `req.TicketID[:8]` while building the job
literal; for a ticket id shorter than 8 bytes this slice panics, before any
state is mutated — modelled as `none`.  Otherwise the job is added to the job
table and inserted into the pending list, and the 1-based position is read
back after insertion. -/
def submit (s : QMState) (req : CreateJobRequest) (newId : String) :
    Option (QMState × CreateJobResponse) :=
  if req.ticketID.length < 8 then none
  else
    let job := mkJob s req newId
    let s1 := { s with jobs := s.jobs ++ [job]
                       queue := insertByPriority s.queue job }
    some (s1, { job := job
                position := getQueuePosition s1.queue newId
                message := "Job queued successfully" })

/-- Outcome of the HTTP CreateJob handler (handlers.go). -/
inductive ApiOutcome where
  | badRequest
  | panic
  | created (resp : CreateJobResponse)
deriving DecidableEq, Repr

/-- CreateJob (handlers.go): validates that ticket id, project id and prompt
are non-empty before calling Submit; a validation failure returns 400 with no
state touched. -/
def createJob (s : QMState) (req : CreateJobRequest) (newId : String) :
    QMState × ApiOutcome :=
  if req.ticketID = "" ∨ req.projectID = "" ∨ req.prompt = "" then
    (s, ApiOutcome.badRequest)
  else
    match submit s req newId with
    | none => (s, ApiOutcome.panic)
    | some (s1, resp) => (s1, ApiOutcome.created resp)

/-- The queue manager's error values (queue.go). -/
inductive QueueError where
  | jobNotFound
  | jobAlreadyCompleted
deriving DecidableEq, Repr

/-- CancelJob (queue.go): not-found and already-completed guards (the latter
checks only `completed` and `failed`), then marks the job cancelled, stamps
the completion time and removes it from the pending list. -/
def cancelJob (s : QMState) (jobID : String) : QMState × Option QueueError :=
  match findJob s jobID with
  | none => (s, some QueueError.jobNotFound)
  | some job =>
      if job.status = JobStatus.completed ∨ job.status = JobStatus.failed then
        (s, some QueueError.jobAlreadyCompleted)
      else
        let s1 := updateJob s jobID fun j =>
          { j with status := JobStatus.cancelled, completedAt := some s.clock }
        ({ s1 with queue := removeFromQueue s1.queue jobID }, none)

/-- Go's decrement-then-clamp of `m.activeJobs[p]`. -/
def intClamp (x : Int) : Int := if x < 0 then 0 else x

/-- Pointwise decrement (clamped at zero) of the active-jobs counter map. -/
def decClamp (f : String → Int) (p : String) : String → Int :=
  fun q => if q = p then intClamp (f p - 1) else f q

/-- Pointwise increment of the active-jobs counter map. -/
def incProj (f : String → Int) (p : String) : String → Int :=
  fun q => if q = p then f q + 1 else f q

/-- handleResult (queue.go): find the first job whose ticket id matches,
stamp completion, set completed/failed from the result status, decrement the
project's active counter (clamped at zero) and remove the job from the
pending list.  There is no guard against the job already being terminal. -/
def handleResult (s : QMState) (result : JobResult) : QMState :=
  match s.jobs.find? (fun j => j.ticketID == result.ticketID) with
  | none => s
  | some job =>
      let s1 := updateJob s job.id fun j =>
        if result.status = "success" then
          { j with completedAt := some s.clock, status := JobStatus.completed }
        else
          { j with completedAt := some s.clock, status := JobStatus.failed,
                   errorMessage := result.error }
      let s2 := { s1 with activeJobs := decClamp s1.activeJobs job.projectID }
      { s2 with queue := removeFromQueue s2.queue job.id }

/-- failJob (queue.go): mark failed with a message, stamp completion,
decrement the project's counter (clamped) and remove from the pending list. -/
def failJob (s : QMState) (jobID : String) (errorMsg : String) : QMState :=
  match findJob s jobID with
  | none => s
  | some job =>
      let s1 := updateJob s jobID fun j =>
        { j with status := JobStatus.failed, errorMessage := errorMsg,
                 completedAt := some s.clock }
      let s2 := { s1 with activeJobs := decClamp s1.activeJobs job.projectID }
      { s2 with queue := removeFromQueue s2.queue job.id }

/-- The admission of one job (the body of processQueue's successful
try-acquire, queue.go): mark it dispatched with a dispatch stamp, bump the
project's active counter and the worker semaphore, and record the spawned
executeJob goroutine. -/
def dispatchOne (s : QMState) (id : String) (projectID : String) : QMState :=
  let s1 := updateJob s id fun j =>
    { j with status := JobStatus.dispatched, dispatchedAt := some s.clock }
  { s1 with activeJobs := incProj s1.activeJobs projectID
            workersUsed := s1.workersUsed + 1
            inflight := id :: s1.inflight }

/-- One admission pass over a snapshot of the pending-list ids
(processQueue, queue.go).  Non-pending entries and projects at their
parallelism cap are skipped; when no worker slot is free the whole pass
stops.  A dispatched job is marked dispatched and counted, and its
executeJob goroutine becomes an inflight task — the pass does NOT remove it
from the pending list. -/
def processQueueGo (s : QMState) (ids : List String) : QMState :=
  match ids with
  | [] => s
  | id :: rest =>
      match findJob s id with
      | none => processQueueGo s rest
      | some job =>
          if job.status ≠ JobStatus.pending then processQueueGo s rest
          else if s.activeJobs job.projectID ≥ getProjectMaxParallel job.projectID then
            processQueueGo s rest
          else if s.workersUsed < s.maxParallelJobs then
            processQueueGo (dispatchOne s id job.projectID) rest
          else s

/-- processQueue (queue.go): one pass over the current pending list. -/
def processQueue (s : QMState) : QMState :=
  processQueueGo s (s.queue.map Job.id)

/-- The tail of executeJob (queue.go), which runs asynchronously after the
admission pass spawned it: on worktree-creation success the job records its
worktree and becomes running (the subsequent GitHub dispatch is a stub that
always succeeds); on failure failJob runs.  Either way the deferred release
frees the worker slot when the goroutine returns. -/
def finishExecute (s : QMState) (jobID : String) (ok : Bool)
    (wtID errMsg : String) : QMState :=
  if jobID ∈ s.inflight then
    let s1 :=
      if ok then
        updateJob s jobID fun j =>
          { j with worktreeID := wtID, status := JobStatus.running,
                   startedAt := some s.clock }
      else failJob s jobID errMsg
    { s1 with workersUsed := s1.workersUsed - 1
              inflight := s1.inflight.erase jobID }
  else s

/-! ## Operation traces over the queue manager -/

/-- The external events of the queue manager: an HTTP submission (with the
fresh uuid the manager would generate), a cancellation, one tick of the
admission loop, a delivered callback, and the completion of an inflight
executeJob goroutine (with the outcome of its worktree creation). -/
inductive Op where
  | submit (req : CreateJobRequest) (newId : String)
  | cancel (jobID : String)
  | admission
  | callback (result : JobResult)
  | finish (jobID : String) (ok : Bool) (wtID errMsg : String)

/-- Advance the logical clock by one tick. -/
def tick (s : QMState) : QMState := { s with clock := s.clock + 1 }

/-- One step.  A submission whose fresh id collides with an existing job is a
no-op, modelling that `uuid.New()` never repeats.  The logical clock advances
once per step so every stamped timestamp is distinct. -/
def step (s : QMState) (op : Op) : QMState :=
  match op with
  | Op.submit req newId =>
      if s.jobs.any (fun j => j.id == newId) then tick s
      else tick (createJob s req newId).1
  | Op.cancel jobID => tick (cancelJob s jobID).1
  | Op.admission => tick (processQueue s)
  | Op.callback result => tick (handleResult s result)
  | Op.finish jobID ok wtID errMsg => tick (finishExecute s jobID ok wtID errMsg)

/-- Run a trace of operations from a given state. -/
def run (s : QMState) (ops : List Op) : QMState :=
  ops.foldl step s

/-! ## Derived observations -/

/-- Is a status dispatched-or-running? -/
def isDispRun : JobStatus → Bool
  | JobStatus.dispatched => true
  | JobStatus.running => true
  | _ => false

/-- Number of jobs of one project whose status is dispatched or running. -/
def countDispRun (s : QMState) (p : String) : Nat :=
  (s.jobs.filter fun j => j.projectID == p && isDispRun j.status).length

/-- The pending-list order required by the spec: strictly greater priority
first, and among equal priorities earlier submission (smaller `createdAt`)
first. -/
def qRel (a b : Job) : Prop :=
  b.priority < a.priority ∨ (a.priority = b.priority ∧ a.createdAt < b.createdAt)

/-- The pending list is sorted for `qRel`. -/
def orderedQ (q : List Job) : Prop := q.Pairwise qRel

/-! ## Worktree manager (internal/worktree/manager.go) -/

/-- WorktreeStatus, from models.go. -/
inductive WtStatus where
  | active
  | merging
  | cleanup
  | deleted
deriving DecidableEq, Repr

/-- Worktree, from models.go. -/
structure Worktree where
  id : String
  projectID : String
  ticketID : String
  path : String
  branchName : String
  status : WtStatus
  createdAt : Nat
  lastUsedAt : Nat
deriving DecidableEq, Repr

/-- The worktree manager's error values (manager.go / spec §4.1). -/
inductive WtError where
  | capacityExceeded
  | repoUnavailable (projectID : String)
  | worktreeCreateFailed (output : String)
  | notFound (wtID : String)
  | repoNotFound (projectID : String)
deriving DecidableEq, Repr

/-- WorktreeConfig (config.go): the fields the manager uses; the max age is
in clock ticks. -/
structure WtConfig where
  basePath : String
  maxActive : Nat
  maxAge : Nat
deriving DecidableEq, Repr

/-- The mutable state of worktree.Manager: the worktree map (as an
association list keyed by worktree id), the project-id → repo-path cache,
and the configuration.  The clock plays the role of `time.Now()`. -/
structure WMState where
  basePath : String
  maxActive : Nat
  maxAge : Nat
  worktrees : List (String × Worktree)
  repoCache : List (String × String)
  clock : Nat
deriving DecidableEq, Repr

/-- NewManager: empty maps. -/
def initWM (cfg : WtConfig) : WMState :=
  { basePath := cfg.basePath
    maxActive := cfg.maxActive
    maxAge := cfg.maxAge
    worktrees := []
    repoCache := []
    clock := 0 }

/-- countActive (manager.go): worktrees with status active. -/
def countActive (s : WMState) : Nat :=
  (s.worktrees.filter fun e => e.2.status == WtStatus.active).length

/-- Go map insertion `m.worktrees[k] = v` (insert-or-replace; Go map
iteration order is unspecified, so the replaced entry may be placed last). -/
def mapInsert (m : List (String × Worktree)) (k : String) (v : Worktree) :
    List (String × Worktree) :=
  (m.filter fun e => ¬ e.1 = k) ++ [(k, v)]

/-- ensureRepo (manager.go).  The cache hit is from the code; the cache miss
path is `Modelled from the spec:` the lazy first-use clone of §4.1/§3 is a
TODO in the source (the code always fails there), so the clone attempt is an
oracle: `some path` caches and returns the fresh clone path, `none` is the
network/auth failure surfaced as RepoUnavailable.  The cache is never
evicted. -/
def ensureRepo (s : WMState) (projectID : String) (cloneResult : Option String) :
    WMState × Except WtError String :=
  match s.repoCache.find? (fun e => e.1 == projectID) with
  | some e => (s, Except.ok e.2)
  | none =>
      match cloneResult with
      | some path =>
          ({ s with repoCache := s.repoCache ++ [(projectID, path)] },
           Except.ok path)
      | none => (s, Except.error (WtError.repoUnavailable projectID))

/-- Create (manager.go): capacity guard first, then ensureRepo, then the git
worktree-add subprocess (its success is the `gitOk` oracle); only after all
of these does the record get registered as active.  Every failure path
returns before the registration. -/
def wtCreate (s : WMState) (projectID ticketID branchName newId : String)
    (cloneResult : Option String) (gitOk : Bool) :
    WMState × Except WtError Worktree :=
  if countActive s ≥ s.maxActive then
    (s, Except.error WtError.capacityExceeded)
  else
    match ensureRepo s projectID cloneResult with
    | (s1, Except.error e) => (s1, Except.error e)
    | (s1, Except.ok _repoPath) =>
        if gitOk then
          let wt : Worktree :=
            { id := newId
              projectID := projectID
              ticketID := ticketID
              path := s1.basePath ++ "/" ++ newId
              branchName := branchName
              status := WtStatus.active
              createdAt := s1.clock
              lastUsedAt := s1.clock }
          ({ s1 with worktrees := mapInsert s1.worktrees newId wt }, Except.ok wt)
        else (s1, Except.error (WtError.worktreeCreateFailed ""))

/-- The body of Delete after the record was found (manager.go): resolve the
project's shared-clone path, then let the git worktree-remove subprocess (or,
when it fails, the unconditional `os.RemoveAll` fallback whose error is not
even inspected) run; either way the record is marked deleted and dropped
from the map, and nil is returned. -/
def wtDeleteFound (s : WMState) (wtID : String) (e : String × Worktree) :
    WMState × Except WtError Unit :=
  match s.repoCache.find? (fun c => c.1 == e.2.projectID) with
  | none => (s, Except.error (WtError.repoNotFound e.2.projectID))
  | some _ =>
      ({ s with worktrees := s.worktrees.filter fun x => ¬ x.1 = wtID },
       Except.ok ())

/-- Delete (manager.go): not-found guard, then `wtDeleteFound`. -/
def wtDelete (s : WMState) (wtID : String) (_gitOk : Bool) :
    WMState × Except WtError Unit :=
  match s.worktrees.find? (fun e => e.1 == wtID) with
  | none => (s, Except.error (WtError.notFound wtID))
  | some e => wtDeleteFound s wtID e

/-- Cleanup (manager.go): drop every worktree whose last use is older than
the configured max age, ignoring individual removal failures. -/
def wtCleanup (s : WMState) : WMState :=
  { s with worktrees := s.worktrees.filter fun e => ¬ s.clock - e.2.lastUsedAt > s.maxAge }

/-- The external events of the worktree manager. -/
inductive WtOp where
  | create (projectID ticketID branchName newId : String)
      (cloneResult : Option String) (gitOk : Bool)
  | delete (wtID : String) (gitOk : Bool)
  | cleanup

/-- One worktree-manager step; the clock advances once per step. -/
def wtStep (s : WMState) (op : WtOp) : WMState :=
  let s1 :=
    match op with
    | WtOp.create p t b nid cr g => (wtCreate s p t b nid cr g).1
    | WtOp.delete wtID g => (wtDelete s wtID g).1
    | WtOp.cleanup => wtCleanup s
  { s1 with clock := s1.clock + 1 }

/-- Run a trace of worktree operations. -/
def wtRun (s : WMState) (ops : List WtOp) : WMState :=
  ops.foldl wtStep s

/-! ## Concrete fixtures for trace evaluation -/

/-- A queue configuration with the default global worker cap (config.go). -/
def dcfg : QueueConfig := { maxParallelJobs := 12 }

/-- A valid submission for project "p" with an 8-character ticket id. -/
def reqA : CreateJobRequest :=
  { ticketID := "TKA00001", projectID := "p", priority := 1,
    prompt := "do", baseBranch := "main" }

/-- Further valid submissions for project "p", distinct tickets. -/
def reqB : CreateJobRequest := { reqA with ticketID := "TKB00001" }

/-- Third submission fixture. -/
def reqC : CreateJobRequest := { reqA with ticketID := "TKC00001" }

/-- Fourth submission fixture. -/
def reqD : CreateJobRequest := { reqA with ticketID := "TKD00001" }

/-- Fifth submission fixture. -/
def reqE : CreateJobRequest := { reqA with ticketID := "TKE00001" }

/-- Job A runs to completion, then its success callback is delivered once. -/
def c2TraceOnce : List Op :=
  [Op.submit reqA "jA", Op.admission, Op.finish "jA" true "wt1" "",
   Op.callback { ticketID := "TKA00001", status := "success", error := "" }]

/-- The same history followed by a duplicate delivery for the same ticket id,
this time carrying a failure outcome. -/
def c2TraceTwice : List Op :=
  [Op.submit reqA "jA", Op.admission, Op.finish "jA" true "wt1" "",
   Op.callback { ticketID := "TKA00001", status := "success", error := "" },
   Op.callback { ticketID := "TKA00001", status := "failure", error := "boom" }]

/-- Jobs A and B of project "p" are dispatched and running; A's success
callback is delivered twice; then three more jobs of "p" are submitted and an
admission pass runs. -/
def c3Trace : List Op :=
  [Op.submit reqA "jA", Op.submit reqB "jB", Op.admission,
   Op.finish "jA" true "w1" "", Op.finish "jB" true "w2" "",
   Op.callback { ticketID := "TKA00001", status := "success", error := "" },
   Op.callback { ticketID := "TKA00001", status := "success", error := "" },
   Op.submit reqC "jC", Op.submit reqD "jD", Op.submit reqE "jE",
   Op.admission]

/-- One job submitted, one admission pass. -/
def c4Trace : List Op := [Op.submit reqA "jA", Op.admission]

/-- One job submitted and then cancelled (reaching the terminal status
cancelled with completion stamp 1). -/
def c5Trace : List Op := [Op.submit reqA "jA", Op.cancel "jA"]

/-- A request that passes the handler validation (all three required fields
non-empty) but whose ticket id is shorter than 8 bytes. -/
def reqShort : CreateJobRequest :=
  { ticketID := "T-1", projectID := "proj", priority := 1,
    prompt := "do", baseBranch := "main" }

/-! ## C2, C3: missing terminal-status guard in handleResult -/

/-- C2: the claim says that once a job is terminal no later callback for the
same ticket id changes its status, error message or completion timestamp.
The code has no such guard: after job "jA" completed (status completed,
completed_at = 3), a duplicate callback delivery with a non-success status
moves it backward to failed, overwrites its error message, and re-stamps
completed_at to 4. -/
theorem c2_duplicate_callback_overwrites_terminal :
    (findJob (run (initQM dcfg) c2TraceOnce) "jA").map
        (fun j => (j.status, j.completedAt))
      = some (JobStatus.completed, some 3) ∧
    (findJob (run (initQM dcfg) c2TraceTwice) "jA").map
        (fun j => (j.status, j.completedAt, j.errorMessage))
      = some (JobStatus.failed, some 4, "boom") := by
  constructor <;> rfl

/-- C3: the claim says the number of dispatched-or-running jobs of one
project never exceeds its parallel limit (3), even under duplicate callback
deliveries.  In `c3Trace` the duplicate delivery for job "jA" decrements the
project's active counter below the number of still-running jobs, after which
the admission pass dispatches three more jobs: project "p" ends with 4 jobs
dispatched or running against a limit of 3. -/
theorem c3_project_cap_exceeded_after_duplicate_callback :
    countDispRun (run (initQM dcfg) c3Trace) "p" = 4 ∧
    getProjectMaxParallel "p" = 3 := by
  constructor <;> rfl

/-! ## C9: panic on short ticket ids in Submit -/

/-- C9: Submit builds the branch name with the Go slice `req.TicketID[:8]`,
which panics for any ticket id shorter than 8 bytes.  The request
`reqShort` (ticket id "T-1") passes the handler's non-empty validation and
then crashes inside Submit before any state mutation. -/
theorem c9_submit_panics_on_short_ticket :
    createJob (initQM dcfg) reqShort "job-1" = (initQM dcfg, ApiOutcome.panic) := by
  rfl

/-! ## C4: dispatched jobs are not removed from the pending list -/

/-- C4 counterexample: the claim says that immediately after any admission
pass no dispatched job is an element of the pending list.  In fact
processQueue never removes the jobs it dispatches: after `[submit, admission]`
the pending list still holds job "jA", now with status dispatched (and the
job is also still in the job table). -/
theorem c4_dispatched_job_still_in_pending_list :
    (run (initQM dcfg) c4Trace).queue.map (fun j => (j.id, j.status))
      = [("jA", JobStatus.dispatched)] ∧
    (findJob (run (initQM dcfg) c4Trace) "jA").map Job.status
      = some JobStatus.dispatched := by
  constructor <;> rfl

/-! ## C5: CancelJob's terminal guard misses cancelled -/

/-- C5 counterexample: the claim says CancelJob on any terminal job
(completed, failed or cancelled) returns JobAlreadyCompleted and never
mutates completed_at.  The code only guards completed and failed: after
`c5Trace` job "jA" is cancelled with completed_at = 1, yet a second
CancelJob succeeds (no error) and re-stamps completed_at to 2. -/
theorem c5_cancel_of_cancelled_job_succeeds_and_restamps :
    (findJob (run (initQM dcfg) c5Trace) "jA").map
        (fun j => (j.status, j.completedAt))
      = some (JobStatus.cancelled, some 1) ∧
    (cancelJob (run (initQM dcfg) c5Trace) "jA").2 = none ∧
    (findJob (cancelJob (run (initQM dcfg) c5Trace) "jA").1 "jA").map
        Job.completedAt
      = some (some 2) := by
  refine ⟨?_, ?_, ?_⟩ <;> rfl

/-- C5 amended: for a job whose status is completed or failed, CancelJob
returns JobAlreadyCompleted and leaves the whole state (in particular
completed_at) unchanged, and CancelJob on an absent id returns JobNotFound
with the state unchanged. -/
theorem c5_cancel_terminal_success_failure
    (s : QMState) (jobID : String) :
    (findJob s jobID = none →
      cancelJob s jobID = (s, some QueueError.jobNotFound)) ∧
    (∀ job, findJob s jobID = some job →
      job.status = JobStatus.completed ∨ job.status = JobStatus.failed →
      cancelJob s jobID = (s, some QueueError.jobAlreadyCompleted)) := by
  constructor
  · intro h
    unfold cancelJob
    rw [h]
  · intro job hfind hterm
    unfold cancelJob
    rw [hfind]
    simp [hterm]

/-- C5 amended, witness: a concrete state with a completed job on which
CancelJob fails with JobAlreadyCompleted and changes nothing, and a concrete
absent id returning JobNotFound. -/
theorem c5_cancel_terminal_witness :
    cancelJob (run (initQM dcfg) c2TraceOnce) "jA"
      = (run (initQM dcfg) c2TraceOnce, some QueueError.jobAlreadyCompleted) ∧
    cancelJob (run (initQM dcfg) c2TraceOnce) "nope"
      = (run (initQM dcfg) c2TraceOnce, some QueueError.jobNotFound) := by
  constructor
  · exact (c5_cancel_terminal_success_failure _ "jA").2
      ((findJob (run (initQM dcfg) c2TraceOnce) "jA").get (by rfl))
      (by rfl) (Or.inl (by rfl))
  · exact (c5_cancel_terminal_success_failure _ "nope").1 (by rfl)

/-! ## C8: handler validation precedes all mutation -/

/-- C8: a submission in which the ticket id, project id or prompt is empty is
rejected by the CreateJob handler with a 400 before the queue manager runs:
the returned state is exactly the input state, so no job is added and the
pending list is untouched. -/
theorem c8_validation_rejects_before_any_mutation
    (s : QMState) (req : CreateJobRequest) (newId : String)
    (h : req.ticketID = "" ∨ req.projectID = "" ∨ req.prompt = "") :
    createJob s req newId = (s, ApiOutcome.badRequest) := by
  unfold createJob
  rw [if_pos h]

/-- C8 witness: a concrete empty-prompt request is rejected with the state
unchanged. -/
theorem c8_validation_witness :
    createJob (initQM dcfg) { reqA with prompt := "" } "j1"
      = (initQM dcfg, ApiOutcome.badRequest) :=
  c8_validation_rejects_before_any_mutation _ _ _ (Or.inr (Or.inr rfl))

/-! ## C1: the pending list stays sorted

The queue-manager invariant: the pending list is `qRel`-sorted, every queued
entry was created before the current clock tick, and job-table ids are
distinct (submissions with a colliding uuid are no-ops). -/

/-- Sortedness, timestamp freshness and id uniqueness as a property of the
three fields they depend on. -/
def QInv3 (queue jobs : List Job) (clock : Nat) : Prop :=
  orderedQ queue ∧ (∀ j ∈ queue, j.createdAt < clock) ∧ (jobs.map Job.id).Nodup

/-- The queue-manager invariant. -/
def QInv (s : QMState) : Prop := QInv3 s.queue s.jobs s.clock

/-- The order qRel entails a non-strict priority drop. -/
theorem qRel_le {a b : Job} (h : qRel a b) : b.priority ≤ a.priority := by
  rcases h with h | ⟨h, _⟩
  · exact le_of_lt h
  · exact le_of_eq h.symm

/-- Members of the extended queue are old members or the inserted job. -/
theorem mem_insertByPriority {j a : Job} :
    ∀ {q : List Job}, a ∈ insertByPriority q j → a ∈ q ∨ a = j := by
  intro q
  induction q with
  | nil =>
      intro h
      simp only [insertByPriority, List.mem_singleton] at h
      exact Or.inr h
  | cons x xs ih =>
      intro h
      simp only [insertByPriority] at h
      split at h
      · rcases List.mem_cons.mp h with h | h
        · exact Or.inr h
        · exact Or.inl h
      · rcases List.mem_cons.mp h with h | h
        · exact Or.inl (h ▸ List.mem_cons_self x xs)
        · rcases ih h with h | h
          · exact Or.inl (List.mem_cons_of_mem _ h)
          · exact Or.inr h

/-- insertByPriority preserves sortedness when the inserted job is newer than
everything already queued. -/
theorem pairwise_insertByPriority {j : Job} :
    ∀ {q : List Job}, q.Pairwise qRel → (∀ x ∈ q, x.createdAt < j.createdAt) →
      (insertByPriority q j).Pairwise qRel := by
  intro q
  induction q with
  | nil =>
      intro _ _
      simp [insertByPriority]
  | cons x xs ih =>
      intro hq hc
      rcases List.pairwise_cons.mp hq with ⟨hx, hxs⟩
      simp only [insertByPriority]
      split
      · rename_i hgt
        refine List.pairwise_cons.mpr ⟨?_, hq⟩
        intro y hy
        rcases List.mem_cons.mp hy with rfl | hy
        · exact Or.inl hgt
        · exact Or.inl (lt_of_le_of_lt (qRel_le (hx y hy)) hgt)
      · rename_i hng
        refine List.pairwise_cons.mpr
          ⟨?_, ih hxs (fun y hy => hc y (List.mem_cons_of_mem _ hy))⟩
        intro y hy
        rcases mem_insertByPriority hy with hy | rfl
        · exact hx y hy
        · rcases lt_or_eq_of_le (not_lt.mp hng) with hlt | heq
          · exact Or.inl hlt
          · exact Or.inr ⟨heq.symm, hc x (List.mem_cons_self x xs)⟩

/-- The exact placement of an inserted job in a sorted queue: ahead of it sit
exactly the entries with equal-or-higher priority, behind it exactly those
with strictly lower priority, and the rest of the queue is untouched. -/
theorem insertByPriority_placement {j : Job} :
    ∀ {q : List Job}, q.Pairwise qRel →
      ∃ l r, insertByPriority q j = l ++ j :: r ∧ l ++ r = q ∧
        (∀ x ∈ l, j.priority ≤ x.priority) ∧ (∀ x ∈ r, x.priority < j.priority) := by
  intro q
  induction q with
  | nil =>
      intro _
      exact ⟨[], [], rfl, rfl, by simp, by simp⟩
  | cons x xs ih =>
      intro hq
      rcases List.pairwise_cons.mp hq with ⟨hx, hxs⟩
      by_cases hgt : j.priority > x.priority
      · refine ⟨[], x :: xs, ?_, rfl, by simp, ?_⟩
        · simp only [insertByPriority, if_pos hgt, List.nil_append]
        · intro y hy
          rcases List.mem_cons.mp hy with rfl | hy
          · exact hgt
          · exact lt_of_le_of_lt (qRel_le (hx y hy)) hgt
      · rcases ih hxs with ⟨l, r, heq, hsplit, hl, hr⟩
        refine ⟨x :: l, r, ?_, ?_, ?_, hr⟩
        · simp only [insertByPriority, if_neg hgt, heq, List.cons_append]
        · rw [List.cons_append, hsplit]
        · intro y hy
          rcases List.mem_cons.mp hy with rfl | hy
          · exact not_lt.mp hgt
          · exact hl y hy

/-- removeFromQueue yields a sublist. -/
theorem removeFromQueue_sublist (jobID : String) :
    ∀ q : List Job, List.Sublist (removeFromQueue q jobID) q := by
  intro q
  induction q with
  | nil => simp [removeFromQueue]
  | cons x xs ih =>
      simp only [removeFromQueue]
      split
      · exact List.sublist_cons_self x xs
      · exact List.Sublist.cons₂ x ih

/-- A job mutation that keeps the fields the queue order and the id map
depend on. -/
def KeepsKeys (f : Job → Job) : Prop :=
  ∀ j, (f j).id = j.id ∧ (f j).priority = j.priority ∧ (f j).createdAt = j.createdAt

/-- The id-guarded version of a key-preserving mutation preserves keys. -/
theorem keepsKeys_guard {f : Job → Job} (hf : KeepsKeys f) (id : String) :
    KeepsKeys (fun j => if j.id = id then f j else j) := by
  intro j
  by_cases h : j.id = id <;> simp [h, hf j]

/-- Mapping a key-preserving mutation keeps the id list. -/
theorem map_id_of_keepsKeys {g : Job → Job} (hg : KeepsKeys g) (l : List Job) :
    (l.map g).map Job.id = l.map Job.id := by
  rw [List.map_map]
  exact List.map_congr_left (fun j _ => (hg j).1)

/-- Mapping a key-preserving mutation keeps sortedness. -/
theorem pairwise_map_of_keepsKeys {g : Job → Job} (hg : KeepsKeys g)
    {q : List Job} (hq : q.Pairwise qRel) : (q.map g).Pairwise qRel := by
  refine List.Pairwise.map g ?_ hq
  intro a b h
  unfold qRel at h ⊢
  rw [(hg a).2.1, (hg b).2.1, (hg a).2.2, (hg b).2.2]
  exact h

/-- Mapping a key-preserving mutation keeps the timestamp bound. -/
theorem created_map_of_keepsKeys {g : Job → Job} (hg : KeepsKeys g)
    {q : List Job} {c : Nat} (hq : ∀ j ∈ q, j.createdAt < c) :
    ∀ j ∈ q.map g, j.createdAt < c := by
  intro j hj
  rcases List.mem_map.mp hj with ⟨x, hx, rfl⟩
  rw [(hg x).2.2]
  exact hq x hx

/-- updateJob preserves the queue invariant for key-preserving mutations. -/
theorem QInv_updateJob {s : QMState} {id : String} {f : Job → Job}
    (hf : KeepsKeys f) (h : QInv s) : QInv (updateJob s id f) := by
  obtain ⟨h1, h2, h3⟩ := h
  have hg := keepsKeys_guard hf id
  refine ⟨pairwise_map_of_keepsKeys hg h1, created_map_of_keepsKeys hg h2, ?_⟩
  show ((s.jobs.map _).map Job.id).Nodup
  rw [map_id_of_keepsKeys hg]
  exact h3

/-- Removing an entry from the pending list preserves the invariant. -/
theorem QInv3_removeQueue {q jobs : List Job} {c : Nat} {id : String}
    (h : QInv3 q jobs c) : QInv3 (removeFromQueue q id) jobs c := by
  obtain ⟨h1, h2, h3⟩ := h
  have hs := removeFromQueue_sublist id q
  exact ⟨h1.sublist hs, fun j hj => h2 j (hs.subset hj), h3⟩

/-- Advancing the clock preserves the invariant. -/
theorem QInv3_clockSucc {q jobs : List Job} {c : Nat}
    (h : QInv3 q jobs c) : QInv3 q jobs (c + 1) :=
  ⟨h.1, fun j hj => Nat.lt_succ_of_lt (h.2.1 j hj), h.2.2⟩

/-- Ticking the clock preserves the invariant. -/
theorem QInv_tick {s : QMState} (h : QInv s) : QInv (tick s) :=
  QInv3_clockSucc h

/-- A fresh successful submission re-establishes the invariant at the next
clock tick. -/
theorem QInv_tick_createJob {s : QMState} {req : CreateJobRequest} {newId : String}
    (hfresh : ¬ s.jobs.any (fun j => j.id == newId) = true) (h : QInv s) :
    QInv (tick (createJob s req newId).1) := by
  obtain ⟨h1, h2, h3⟩ := h
  unfold createJob
  split
  · exact QInv_tick ⟨h1, h2, h3⟩
  · cases hs : submit s req newId with
    | none => exact QInv_tick ⟨h1, h2, h3⟩
    | some pr =>
        obtain ⟨s2, resp⟩ := pr
        show QInv (tick s2)
        unfold submit at hs
        split at hs
        · exact absurd hs (by simp)
        · simp only [Option.some.injEq, Prod.mk.injEq] at hs
          obtain ⟨hs1, -⟩ := hs
          subst hs1
          refine ⟨?_, ?_, ?_⟩
          · exact pairwise_insertByPriority h1 h2
          · intro x hx
            rcases mem_insertByPriority hx with hx | rfl
            · exact Nat.lt_succ_of_lt (h2 x hx)
            · exact Nat.lt_succ_self _
          · show ((s.jobs ++ [mkJob s req newId]).map Job.id).Nodup
            rw [List.map_append, List.nodup_append]
            refine ⟨h3, by simp, ?_⟩
            intro a ha hb
            simp only [List.map_cons, List.map_nil, List.mem_singleton] at hb
            rcases List.mem_map.mp ha with ⟨x, hx, rfl⟩
            apply hfresh
            exact List.any_eq_true.mpr ⟨x, hx, by simp [hb, mkJob]⟩

/-- CancelJob preserves the invariant. -/
theorem QInv_cancelJob {s : QMState} {jobID : String} (h : QInv s) :
    QInv (cancelJob s jobID).1 := by
  unfold cancelJob
  split
  · exact h
  · split
    · exact h
    · exact QInv3_removeQueue (QInv_updateJob (by intro j; simp [KeepsKeys]) h)

/-- handleResult preserves the invariant. -/
theorem QInv_handleResult {s : QMState} {result : JobResult} (h : QInv s) :
    QInv (handleResult s result) := by
  unfold handleResult
  split
  · exact h
  · refine QInv3_removeQueue (QInv_updateJob ?_ h)
    intro j
    by_cases hs : result.status = "success" <;> simp [hs]

/-- failJob preserves the invariant. -/
theorem QInv_failJob {s : QMState} {jobID errorMsg : String} (h : QInv s) :
    QInv (failJob s jobID errorMsg) := by
  unfold failJob
  split
  · exact h
  · exact QInv3_removeQueue (QInv_updateJob (by intro j; simp [KeepsKeys]) h)

/-- finishExecute preserves the invariant. -/
theorem QInv_finishExecute {s : QMState} {jobID : String} {ok : Bool}
    {wtID errMsg : String} (h : QInv s) :
    QInv (finishExecute s jobID ok wtID errMsg) := by
  unfold finishExecute
  split
  · show QInv (if ok then _ else _)
    cases ok with
    | true => exact QInv_updateJob (by intro j; simp [KeepsKeys]) h
    | false => exact QInv_failJob h
  · exact h

/-- Each admission-pass step preserves the invariant. -/
theorem QInv_processQueueGo :
    ∀ (ids : List String) (s : QMState), QInv s → QInv (processQueueGo s ids) := by
  intro ids
  induction ids with
  | nil => intro s h; exact h
  | cons id rest ih =>
      intro s h
      unfold processQueueGo
      split
      · exact ih s h
      · split
        · exact ih s h
        · split
          · exact ih s h
          · split
            · exact ih _ (QInv_updateJob (by intro j; simp [KeepsKeys]) h)
            · exact h

/-- One step of any operation preserves the invariant. -/
theorem QInv_step (s : QMState) (op : Op) (h : QInv s) : QInv (step s op) := by
  cases op with
  | submit req newId =>
      show QInv (if s.jobs.any (fun j => j.id == newId) then _ else _)
      split
      · exact QInv_tick h
      · rename_i hfresh
        exact QInv_tick_createJob hfresh h
  | cancel jobID => exact QInv_tick (QInv_cancelJob h)
  | admission => exact QInv_tick (QInv_processQueueGo _ _ h)
  | callback result => exact QInv_tick (QInv_handleResult h)
  | finish jobID ok wtID errMsg => exact QInv_tick (QInv_finishExecute h)

/-- A property preserved by every step holds after every run. -/
theorem run_preserve {P : QMState → Prop}
    (hstep : ∀ s op, P s → P (step s op)) :
    ∀ (ops : List Op) (s : QMState), P s → P (run s ops) := by
  intro ops
  induction ops with
  | nil => intro s h; exact h
  | cons o rest ih => intro s h; exact ih (step s o) (hstep s o h)

/-- The invariant holds in every reachable queue-manager state. -/
theorem QInv_run (cfg : QueueConfig) (ops : List Op) :
    QInv (run (initQM cfg) ops) := by
  refine run_preserve QInv_step ops (initQM cfg) ?_
  show QInv3 [] [] 0
  exact ⟨List.Pairwise.nil, by simp, by simp⟩

/-- C1: in every reachable state (any sequence of submissions, cancellations,
admission passes, callbacks and executeJob completions) the pending list is
sorted by priority descending with submission order ascending among equal
priorities; and a fresh submission is placed ahead of exactly the queued
entries whose priority is strictly lower than its own and behind all entries
of equal or higher priority, the rest of the list being untouched. -/
theorem c1_pending_list_sorted (cfg : QueueConfig) (ops : List Op) :
    orderedQ (run (initQM cfg) ops).queue ∧
    (∀ req newId s1 resp,
      submit (run (initQM cfg) ops) req newId = some (s1, resp) →
      ∃ l r, s1.queue = l ++ mkJob (run (initQM cfg) ops) req newId :: r ∧
        l ++ r = (run (initQM cfg) ops).queue ∧
        (∀ x ∈ l, req.priority ≤ x.priority) ∧
        (∀ x ∈ r, x.priority < req.priority)) := by
  have hinv := QInv_run cfg ops
  refine ⟨hinv.1, ?_⟩
  intro req newId s1 resp hsub
  unfold submit at hsub
  split at hsub
  · exact absurd hsub (by simp)
  · simp only [Option.some.injEq, Prod.mk.injEq] at hsub
    obtain ⟨hs1, -⟩ := hsub
    subst hs1
    rcases insertByPriority_placement
        (j := mkJob (run (initQM cfg) ops) req newId) hinv.1 with
      ⟨l, r, heq, hsplit, hl, hr⟩
    exact ⟨l, r, heq, hsplit, hl, hr⟩

/-- Fixture: a high-priority submission. -/
def reqHi : CreateJobRequest := { reqB with priority := 3 }

/-- Fixture trace: a normal then a high-priority submission. -/
def c1Trace : List Op := [Op.submit reqA "j1", Op.submit reqHi "j2"]

/-- The state/response pair of a third submission on top of `c1Trace`. -/
def c1Pair : QMState × CreateJobResponse :=
  (submit (run (initQM dcfg) c1Trace) reqC "j3").getD
    (initQM dcfg, { job := mkJob (initQM dcfg) reqA "x", position := 0, message := "" })

/-- C1 witness: the placement property instantiated on a concrete three-job
trace. -/
theorem c1_pending_list_sorted_witness :
    orderedQ (run (initQM dcfg) c1Trace).queue ∧
    (∃ l r, c1Pair.1.queue = l ++ mkJob (run (initQM dcfg) c1Trace) reqC "j3" :: r ∧
      l ++ r = (run (initQM dcfg) c1Trace).queue ∧
      (∀ x ∈ l, reqC.priority ≤ x.priority) ∧
      (∀ x ∈ r, x.priority < reqC.priority)) :=
  ⟨(c1_pending_list_sorted dcfg c1Trace).1,
   (c1_pending_list_sorted dcfg c1Trace).2 reqC "j3" c1Pair.1 c1Pair.2 (by rfl)⟩

/-! ## C4 amended: the admission pass leaves the pending list's membership
unchanged and never touches non-pending jobs -/

/-- An admission pass never changes which jobs sit in the pending list or in
the job table, and passes every non-pending job through unchanged. -/
theorem processQueueGo_frame :
    ∀ (ids : List String) (s : QMState), (s.jobs.map Job.id).Nodup →
      (processQueueGo s ids).queue.map Job.id = s.queue.map Job.id ∧
      (processQueueGo s ids).jobs.map Job.id = s.jobs.map Job.id ∧
      ∀ j ∈ s.jobs, j.status ≠ JobStatus.pending → j ∈ (processQueueGo s ids).jobs := by
  intro ids
  induction ids with
  | nil => intro s h; exact ⟨rfl, rfl, fun j hj _ => hj⟩
  | cons id rest ih =>
      intro s hnd
      unfold processQueueGo
      split
      · exact ih s hnd
      · rename_i job hfind
        split
        · exact ih s hnd
        · rename_i hpend
          split
          · exact ih s hnd
          · split
            · have hg : KeepsKeys (fun j : Job =>
                  if j.id = id then
                    { j with status := JobStatus.dispatched,
                             dispatchedAt := some s.clock } else j) :=
                keepsKeys_guard (by intro j; simp [KeepsKeys]) id
              have hjobid : job.id = id := by
                have := List.find?_some hfind
                simpa using this
              have hjobmem : job ∈ s.jobs := List.mem_of_find?_eq_some hfind
              have hjobpend : job.status = JobStatus.pending := not_not.mp hpend
              have hjobs : (dispatchOne s id job.projectID).jobs
                  = s.jobs.map (fun j : Job =>
                      if j.id = id then
                        { j with status := JobStatus.dispatched,
                                 dispatchedAt := some s.clock } else j) := rfl
              have hqueue : (dispatchOne s id job.projectID).queue
                  = s.queue.map (fun j : Job =>
                      if j.id = id then
                        { j with status := JobStatus.dispatched,
                                 dispatchedAt := some s.clock } else j) := rfl
              have hnd2 : ((dispatchOne s id job.projectID).jobs.map Job.id).Nodup := by
                rw [hjobs, map_id_of_keepsKeys hg]
                exact hnd
              obtain ⟨ha, hb, hc⟩ := ih (dispatchOne s id job.projectID) hnd2
              refine ⟨?_, ?_, ?_⟩
              · rw [ha, hqueue, map_id_of_keepsKeys hg]
              · rw [hb, hjobs, map_id_of_keepsKeys hg]
              · intro j hj hjst
                have hne : ¬ j.id = id := by
                  intro hid
                  have hjeq : j = job :=
                    List.inj_on_of_nodup_map hnd hj hjobmem (by rw [hid, hjobid])
                  apply hjst
                  rw [hjeq]
                  exact hjobpend
                have hjmem : j ∈ (dispatchOne s id job.projectID).jobs := by
                  rw [hjobs]
                  have := List.mem_map_of_mem (fun j : Job =>
                    if j.id = id then
                      { j with status := JobStatus.dispatched,
                               dispatchedAt := some s.clock } else j) hj
                  simpa [if_neg hne] using this
                exact hc j hjmem hjst
            · exact ⟨rfl, rfl, fun j hj _ => hj⟩

/-- C4 amended: the admission pass does NOT remove a job it dispatches from
the pending list — the job stays in the pending list (now with status
dispatched) and in the job table; double dispatch is prevented instead by
the pass skipping every entry whose status is not pending, leaving all
non-pending jobs untouched.  Removal from the pending list happens only
when a job is cancelled, fails, or completes. -/
theorem c4_admission_pass_keeps_membership (cfg : QueueConfig) (ops : List Op) :
    (processQueue (run (initQM cfg) ops)).queue.map Job.id
        = (run (initQM cfg) ops).queue.map Job.id ∧
    (processQueue (run (initQM cfg) ops)).jobs.map Job.id
        = (run (initQM cfg) ops).jobs.map Job.id ∧
    ∀ j ∈ (run (initQM cfg) ops).jobs, j.status ≠ JobStatus.pending →
      j ∈ (processQueue (run (initQM cfg) ops)).jobs :=
  processQueueGo_frame _ _ (QInv_run cfg ops).2.2

/-- The (dispatched) job sitting in the job table after `c4Trace`. -/
def c4J : Job :=
  ((run (initQM dcfg) c4Trace).jobs.head?).getD (mkJob (initQM dcfg) reqA "x")

/-- C4 amended, witness: on the concrete `c4Trace` state a further admission
pass keeps the pending list's ids and passes the dispatched job through
unchanged. -/
theorem c4_admission_pass_keeps_membership_witness :
    (processQueue (run (initQM dcfg) c4Trace)).queue.map Job.id
        = (run (initQM dcfg) c4Trace).queue.map Job.id ∧
    c4J ∈ (processQueue (run (initQM dcfg) c4Trace)).jobs :=
  ⟨(c4_admission_pass_keeps_membership dcfg c4Trace).1,
   (c4_admission_pass_keeps_membership dcfg c4Trace).2.2 c4J (by decide) (by decide)⟩

/-! ## C10: cancellation touches no counter -/

/-- When a callback's ticket matches a job, handleResult's effect on the
active-jobs counters is exactly the clamped decrement at the matched job's
project. -/
theorem handleResult_activeJobs (s : QMState) (result : JobResult) (cj : Job)
    (hfound : s.jobs.find? (fun j => j.ticketID == result.ticketID) = some cj) :
    (handleResult s result).activeJobs = decClamp s.activeJobs cj.projectID := by
  unfold handleResult
  rw [hfound]
  rfl

/-- C10: cancelling a dispatched or running job succeeds and mutates only the
job's status and completion timestamp and its pending-list entry: the
per-project active counter map, the worker-pool occupancy and the inflight
task set are all left unchanged, and the job table is rewritten only at the
cancelled job.  The project's slot is released only when a callback for the
job's ticket is later processed, which decrements the (unchanged) counter
with the usual clamp. -/
theorem c10_cancel_frame
    (s : QMState) (jobID : String) (job : Job)
    (hfind : findJob s jobID = some job)
    (hst : job.status = JobStatus.dispatched ∨ job.status = JobStatus.running) :
    (cancelJob s jobID).2 = none ∧
    (cancelJob s jobID).1.activeJobs = s.activeJobs ∧
    (cancelJob s jobID).1.workersUsed = s.workersUsed ∧
    (cancelJob s jobID).1.inflight = s.inflight ∧
    (cancelJob s jobID).1.jobs = s.jobs.map (fun j => if j.id = jobID then
        { j with status := JobStatus.cancelled, completedAt := some s.clock } else j) ∧
    (cancelJob s jobID).1.queue = removeFromQueue (s.queue.map (fun j => if j.id = jobID then
        { j with status := JobStatus.cancelled, completedAt := some s.clock } else j)) jobID ∧
    (∀ result : JobResult,
      (cancelJob s jobID).1.jobs.find? (fun j => j.ticketID == result.ticketID)
        = some { job with status := JobStatus.cancelled, completedAt := some s.clock } →
      (handleResult (cancelJob s jobID).1 result).activeJobs job.projectID
        = intClamp (s.activeJobs job.projectID - 1)) := by
  have hterm : ¬ (job.status = JobStatus.completed ∨ job.status = JobStatus.failed) := by
    rcases hst with h | h <;> simp [h]
  have hc : cancelJob s jobID =
      ({ updateJob s jobID (fun j =>
            { j with status := JobStatus.cancelled, completedAt := some s.clock }) with
          queue := removeFromQueue (updateJob s jobID (fun j =>
            { j with status := JobStatus.cancelled, completedAt := some s.clock })).queue jobID },
        none) := by
    unfold cancelJob
    rw [hfind]
    exact if_neg hterm
  rw [hc]
  refine ⟨rfl, rfl, rfl, rfl, rfl, rfl, ?_⟩
  intro result hfound
  rw [handleResult_activeJobs _ _ _ hfound]
  have hproj : ({ job with status := JobStatus.cancelled, completedAt := some s.clock } : Job).projectID = job.projectID := rfl
  rw [hproj]
  show decClamp s.activeJobs job.projectID job.projectID
    = intClamp (s.activeJobs job.projectID - 1)
  simp [decClamp]

/-- The callback record for the job cancelled in `c4Trace`. -/
def c10Res : JobResult := { ticketID := "TKA00001", status := "success", error := "" }

/-- C10 witness: on the concrete dispatched job of `c4Trace`, cancellation
returns success, leaves the counters untouched, and a later callback for its
ticket decrements the project counter. -/
theorem c10_cancel_frame_witness :
    (cancelJob (run (initQM dcfg) c4Trace) "jA").2 = none ∧
    (cancelJob (run (initQM dcfg) c4Trace) "jA").1.activeJobs
      = (run (initQM dcfg) c4Trace).activeJobs ∧
    (cancelJob (run (initQM dcfg) c4Trace) "jA").1.workersUsed
      = (run (initQM dcfg) c4Trace).workersUsed ∧
    (handleResult (cancelJob (run (initQM dcfg) c4Trace) "jA").1 c10Res).activeJobs
        c4J.projectID
      = intClamp ((run (initQM dcfg) c4Trace).activeJobs c4J.projectID - 1) := by
  have h := c10_cancel_frame (run (initQM dcfg) c4Trace) "jA" c4J (by rfl)
    (Or.inl (by rfl))
  exact ⟨h.1, h.2.1, h.2.2.1, h.2.2.2.2.2.2 c10Res (by rfl)⟩

/-! ## C6, C7: worktree-manager invariants -/

/-- ensureRepo never touches the worktree map, the configuration or the
clock, and only ever extends the repo cache. -/
theorem ensureRepo_state (s : WMState) (p : String) (cr : Option String) :
    (ensureRepo s p cr).1.worktrees = s.worktrees ∧
    (ensureRepo s p cr).1.maxActive = s.maxActive ∧
    (ensureRepo s p cr).1.maxAge = s.maxAge ∧
    (ensureRepo s p cr).1.clock = s.clock ∧
    (∀ c ∈ s.repoCache, c ∈ (ensureRepo s p cr).1.repoCache) := by
  unfold ensureRepo
  split
  · exact ⟨rfl, rfl, rfl, rfl, fun c hc => hc⟩
  · split
    · exact ⟨rfl, rfl, rfl, rfl, fun c hc => List.mem_append_left _ hc⟩
    · exact ⟨rfl, rfl, rfl, rfl, fun c hc => hc⟩

/-- A successful ensureRepo leaves the requested project cached. -/
theorem ensureRepo_ok_cached {s : WMState} {p : String} {cr : Option String}
    {s1 : WMState} {path : String}
    (h : ensureRepo s p cr = (s1, Except.ok path)) :
    ∃ c ∈ s1.repoCache, c.1 = p := by
  unfold ensureRepo at h
  split at h
  · rename_i e heq
    simp only [Prod.mk.injEq] at h
    obtain ⟨h1, -⟩ := h
    subst h1
    exact ⟨e, List.mem_of_find?_eq_some heq, by simpa using List.find?_some heq⟩
  · split at h
    · rename_i path0
      simp only [Prod.mk.injEq] at h
      obtain ⟨h1, -⟩ := h
      subst h1
      exact ⟨(p, path0), List.mem_append_right _ (List.mem_singleton.mpr rfl), rfl⟩
    · exact absurd h (by simp)

/-- The filtered-insert form of a Go map write adds at most one active
entry. -/
theorem length_filter_mapInsert_le (m : List (String × Worktree)) (k : String)
    (v : Worktree) :
    ((mapInsert m k v).filter (fun e => e.2.status == WtStatus.active)).length
      ≤ (m.filter (fun e => e.2.status == WtStatus.active)).length + 1 := by
  unfold mapInsert
  rw [List.filter_append, List.length_append]
  have h1 : (((m.filter (fun e => ¬ e.1 = k)).filter
      (fun e => e.2.status == WtStatus.active))).length
      ≤ (m.filter (fun e => e.2.status == WtStatus.active)).length :=
    ((List.filter_sublist m).filter _).length_le
  have h2 : (([(k, v)] : List (String × Worktree)).filter
      (fun e => e.2.status == WtStatus.active)).length ≤ 1 := by
    cases h : ((k, v).2.status == WtStatus.active) <;>
      simp [List.filter_cons, h]
  omega

/-- A filtered worktree map has no more active entries. -/
theorem length_filter_filter_le (m : List (String × Worktree))
    (q : String × Worktree → Bool) :
    ((m.filter q).filter (fun e => e.2.status == WtStatus.active)).length
      ≤ (m.filter (fun e => e.2.status == WtStatus.active)).length :=
  ((List.filter_sublist m).filter _).length_le

/-- A Create that returns an error registers no worktree record. -/
theorem wtCreate_error_worktrees
    (s : WMState) (p t b nid : String) (cr : Option String) (g : Bool)
    (s1 : WMState) (e : WtError)
    (h : wtCreate s p t b nid cr g = (s1, Except.error e)) :
    s1.worktrees = s.worktrees := by
  unfold wtCreate at h
  split at h
  · simp only [Prod.mk.injEq] at h
    obtain ⟨h1, -⟩ := h
    subst h1
    rfl
  · split at h
    · rename_i s2 e2 heq
      simp only [Prod.mk.injEq] at h
      obtain ⟨h1, -⟩ := h
      subst h1
      have hw := (ensureRepo_state s p cr).1
      rw [heq] at hw
      exact hw
    · rename_i s2 path heq
      split at h
      · exact absurd h (by simp)
      · simp only [Prod.mk.injEq] at h
        obtain ⟨h1, -⟩ := h
        subst h1
        have hw := (ensureRepo_state s p cr).1
        rw [heq] at hw
        exact hw

/-- Create at capacity is rejected with the state entirely unchanged. -/
theorem wtCreate_at_capacity
    (s : WMState) (p t b nid : String) (cr : Option String) (g : Bool)
    (h : countActive s ≥ s.maxActive) :
    wtCreate s p t b nid cr g = (s, Except.error WtError.capacityExceeded) := by
  unfold wtCreate
  rw [if_pos h]

/-- Create preserves the configured maximum and the capacity bound. -/
theorem wtCreate_inv
    (s : WMState) (p t b nid : String) (cr : Option String) (g : Bool)
    (h : countActive s ≤ s.maxActive) :
    countActive (wtCreate s p t b nid cr g).1 ≤ (wtCreate s p t b nid cr g).1.maxActive ∧
    (wtCreate s p t b nid cr g).1.maxActive = s.maxActive := by
  unfold wtCreate
  split
  · exact ⟨h, rfl⟩
  · rename_i hcap
    have hlt : countActive s < s.maxActive := lt_of_not_ge hcap
    split
    · rename_i s2 e2 heq
      have hw := (ensureRepo_state s p cr).1
      have hm := (ensureRepo_state s p cr).2.1
      rw [heq] at hw hm
      constructor
      · show countActive s2 ≤ s2.maxActive
        unfold countActive
        rw [hw, hm]
        exact h
      · exact hm
    · rename_i s2 path heq
      have hw := (ensureRepo_state s p cr).1
      have hm := (ensureRepo_state s p cr).2.1
      rw [heq] at hw hm
      split
      · constructor
        · show ((mapInsert s2.worktrees nid _).filter
              (fun e => e.2.status == WtStatus.active)).length ≤ s2.maxActive
          refine le_trans (length_filter_mapInsert_le _ _ _) ?_
          have : (s2.worktrees.filter (fun e => e.2.status == WtStatus.active)).length
              = countActive s := by
            unfold countActive
            rw [hw]
          rw [this, hm]
          exact hlt
        · exact hm
      · constructor
        · show countActive s2 ≤ s2.maxActive
          unfold countActive
          rw [hw, hm]
          exact h
        · exact hm

/-- Delete preserves the configured maximum and the capacity bound. -/
theorem wtDelete_inv (s : WMState) (wtID : String) (g : Bool)
    (h : countActive s ≤ s.maxActive) :
    countActive (wtDelete s wtID g).1 ≤ (wtDelete s wtID g).1.maxActive ∧
    (wtDelete s wtID g).1.maxActive = s.maxActive := by
  unfold wtDelete
  split
  · exact ⟨h, rfl⟩
  · unfold wtDeleteFound
    split
    · exact ⟨h, rfl⟩
    · refine ⟨?_, rfl⟩
      show ((s.worktrees.filter _).filter (fun e => e.2.status == WtStatus.active)).length
        ≤ s.maxActive
      exact le_trans (length_filter_filter_le _ _) h

/-- Cleanup preserves the configured maximum and the capacity bound. -/
theorem wtCleanup_inv (s : WMState)
    (h : countActive s ≤ s.maxActive) :
    countActive (wtCleanup s) ≤ (wtCleanup s).maxActive ∧
    (wtCleanup s).maxActive = s.maxActive := by
  refine ⟨?_, rfl⟩
  show ((s.worktrees.filter _).filter (fun e => e.2.status == WtStatus.active)).length
    ≤ s.maxActive
  exact le_trans (length_filter_filter_le _ _) h

/-- One worktree step preserves the capacity bound and the configured
maximum. -/
theorem wtStep_inv (s : WMState) (op : WtOp)
    (h : countActive s ≤ s.maxActive) :
    countActive (wtStep s op) ≤ (wtStep s op).maxActive ∧
    (wtStep s op).maxActive = s.maxActive := by
  cases op with
  | create p t b nid cr g => exact wtCreate_inv s p t b nid cr g h
  | delete wtID g => exact wtDelete_inv s wtID g h
  | cleanup => exact wtCleanup_inv s h

/-- A property preserved by every worktree step holds after every run. -/
theorem wtRun_preserve {P : WMState → Prop}
    (hstep : ∀ s op, P s → P (wtStep s op)) :
    ∀ (ops : List WtOp) (s : WMState), P s → P (wtRun s ops) := by
  intro ops
  induction ops with
  | nil => intro s h; exact h
  | cons o rest ih => intro s h; exact ih (wtStep s o) (hstep s o h)

/-- The capacity bound (relative to the state's own maximum) holds in every
reachable worktree-manager state. -/
theorem wtRun_bounded (cfg : WtConfig) (ops : List WtOp) :
    countActive (wtRun (initWM cfg) ops) ≤ (wtRun (initWM cfg) ops).maxActive :=
  wtRun_preserve (fun s op h => (wtStep_inv s op h).1) ops (initWM cfg)
    (Nat.zero_le _)

/-- The configured maximum never changes across a run. -/
theorem wtRun_maxActive (cfg : WtConfig) (ops : List WtOp) :
    (wtRun (initWM cfg) ops).maxActive = cfg.maxActive := by
  have h := wtRun_preserve
    (P := fun s => countActive s ≤ s.maxActive ∧ s.maxActive = cfg.maxActive)
    (fun s op hp => ⟨(wtStep_inv s op hp.1).1, (wtStep_inv s op hp.1).2.trans hp.2⟩)
    ops (initWM cfg) ⟨Nat.zero_le _, rfl⟩
  exact h.2

/-- C6: across every sequence of Create, Delete and Cleanup operations the
number of worktrees with status active never exceeds the configured global
maximum; a Create issued at capacity fails with the capacity error and
registers nothing (the state is returned unchanged); and any Create that
fails for any reason leaves the worktree map unchanged. -/
theorem c6_active_worktrees_bounded (cfg : WtConfig) (ops : List WtOp) :
    countActive (wtRun (initWM cfg) ops) ≤ cfg.maxActive ∧
    (∀ (s : WMState) (p t b nid : String) (cr : Option String) (g : Bool),
      countActive s ≥ s.maxActive →
      wtCreate s p t b nid cr g = (s, Except.error WtError.capacityExceeded)) ∧
    (∀ (s : WMState) (p t b nid : String) (cr : Option String) (g : Bool)
        (s1 : WMState) (e : WtError),
      wtCreate s p t b nid cr g = (s1, Except.error e) →
      s1.worktrees = s.worktrees) := by
  refine ⟨?_, wtCreate_at_capacity, wtCreate_error_worktrees⟩
  calc countActive (wtRun (initWM cfg) ops)
      ≤ (wtRun (initWM cfg) ops).maxActive := wtRun_bounded cfg ops
    _ = cfg.maxActive := wtRun_maxActive cfg ops

/-- The default worktree configuration (config.go). -/
def wcfg : WtConfig := { basePath := "/wt", maxActive := 20, maxAge := 7200 }

/-- A zero-capacity configuration, for exercising the capacity guard. -/
def wcfg0 : WtConfig := { basePath := "/wt", maxActive := 0, maxAge := 7200 }

/-- A trace registering one worktree (the project clone succeeds, git
worktree-add succeeds). -/
def w1Trace : List WtOp :=
  [WtOp.create "p" "TKA00001" "b1" "w1" (some "/repo/p") true]

/-- C6 witness: the bound on a concrete one-create trace, a concrete Create
at capacity rejected with the state unchanged, and a concrete failed Create
(repo unavailable) leaving the worktree map unchanged. -/
theorem c6_active_worktrees_bounded_witness :
    countActive (wtRun (initWM wcfg) w1Trace) ≤ wcfg.maxActive ∧
    wtCreate (initWM wcfg0) "p" "t" "b" "n" none true
      = (initWM wcfg0, Except.error WtError.capacityExceeded) ∧
    (initWM wcfg).worktrees = (initWM wcfg).worktrees :=
  ⟨(c6_active_worktrees_bounded wcfg w1Trace).1,
   (c6_active_worktrees_bounded wcfg w1Trace).2.1 (initWM wcfg0) "p" "t" "b" "n"
     none true (by decide),
   (c6_active_worktrees_bounded wcfg w1Trace).2.2 (initWM wcfg) "p" "t" "b" "n"
     none true (initWM wcfg) (WtError.repoUnavailable "p") (by rfl)⟩

/-- Every registered worktree's project has a cached shared-clone path
(ensureRepo caches before Create can register, and the cache is never
evicted). -/
def CacheInv (s : WMState) : Prop :=
  ∀ e ∈ s.worktrees, ∃ c ∈ s.repoCache, c.1 = e.2.projectID

/-- Create preserves the cache invariant. -/
theorem wtCreate_cacheInv (s : WMState) (p t b nid : String)
    (cr : Option String) (g : Bool) (h : CacheInv s) :
    CacheInv (wtCreate s p t b nid cr g).1 := by
  unfold wtCreate
  split
  · exact h
  · split
    · rename_i s2 e2 heq
      intro e he
      have hw := (ensureRepo_state s p cr).1
      have hmono := (ensureRepo_state s p cr).2.2.2.2
      rw [heq] at hw hmono
      rw [show (s2, Except.error e2).1.worktrees = s2.worktrees from rfl] at he
      rw [hw] at he
      obtain ⟨c, hc, hcp⟩ := h e he
      exact ⟨c, hmono c hc, hcp⟩
    · rename_i s2 path heq
      have hw := (ensureRepo_state s p cr).1
      have hmono := (ensureRepo_state s p cr).2.2.2.2
      rw [heq] at hw hmono
      split
      · intro e he
        have he2 : e ∈ mapInsert s2.worktrees nid _ := he
        unfold mapInsert at he2
        rcases List.mem_append.mp he2 with he2 | he2
        · have he3 : e ∈ s2.worktrees := List.mem_of_mem_filter he2
          rw [hw] at he3
          obtain ⟨c, hc, hcp⟩ := h e he3
          exact ⟨c, hmono c hc, hcp⟩
        · rcases List.mem_singleton.mp he2 with rfl
          obtain ⟨c, hc, hcp⟩ := ensureRepo_ok_cached heq
          exact ⟨c, hc, hcp⟩
      · intro e he
        rw [show (s2, Except.error (WtError.worktreeCreateFailed "")).1.worktrees
            = s2.worktrees from rfl, hw] at he
        obtain ⟨c, hc, hcp⟩ := h e he
        exact ⟨c, hmono c hc, hcp⟩

/-- Delete preserves the cache invariant. -/
theorem wtDelete_cacheInv (s : WMState) (wtID : String) (g : Bool)
    (h : CacheInv s) : CacheInv (wtDelete s wtID g).1 := by
  unfold wtDelete
  split
  · exact h
  · unfold wtDeleteFound
    split
    · exact h
    · intro e he
      exact h e (List.mem_of_mem_filter he)

/-- Cleanup preserves the cache invariant. -/
theorem wtCleanup_cacheInv (s : WMState) (h : CacheInv s) :
    CacheInv (wtCleanup s) := by
  intro e he
  exact h e (List.mem_of_mem_filter he)

/-- One worktree step preserves the cache invariant. -/
theorem wtStep_cacheInv (s : WMState) (op : WtOp) (h : CacheInv s) :
    CacheInv (wtStep s op) := by
  cases op with
  | create p t b nid cr g => exact wtCreate_cacheInv s p t b nid cr g h
  | delete wtID g => exact wtDelete_cacheInv s wtID g h
  | cleanup => exact wtCleanup_cacheInv s h

/-- The cache invariant holds in every reachable worktree-manager state. -/
theorem cacheInv_run (cfg : WtConfig) (ops : List WtOp) :
    CacheInv (wtRun (initWM cfg) ops) :=
  wtRun_preserve wtStep_cacheInv ops (initWM cfg) (by intro e he; cases he)

/-- Delete on a found record with a cached repo path always unregisters and
returns nil. -/
theorem wtDelete_found_eq {s : WMState} {wtID : String} (g : Bool)
    {e : String × Worktree}
    (hfind : s.worktrees.find? (fun x => x.1 == wtID) = some e)
    (hcache : (s.repoCache.find? (fun c => c.1 == e.2.projectID)).isSome) :
    wtDelete s wtID g =
      ({ s with worktrees := s.worktrees.filter fun x => ¬ x.1 = wtID },
       Except.ok ()) := by
  unfold wtDelete
  rw [hfind]
  show wtDeleteFound s wtID e = _
  unfold wtDeleteFound
  obtain ⟨c0, hc0⟩ := Option.isSome_iff_exists.mp hcache
  rw [hc0]

/-- C7: in every reachable worktree-manager state, Delete on a worktree id
present in the map succeeds regardless of whether the git-level removal or
the filesystem fallback succeeded: it returns no error, drops exactly that
record from the map, and afterwards no record with that id remains (so the
id no longer counts towards the active set). -/
theorem c7_delete_always_unregisters (cfg : WtConfig) (ops : List WtOp)
    (wtID : String) (g : Bool)
    (h : ((wtRun (initWM cfg) ops).worktrees.find? (fun e => e.1 == wtID)).isSome) :
    (wtDelete (wtRun (initWM cfg) ops) wtID g).2 = Except.ok () ∧
    (wtDelete (wtRun (initWM cfg) ops) wtID g).1.worktrees
      = (wtRun (initWM cfg) ops).worktrees.filter (fun x => ¬ x.1 = wtID) ∧
    ((wtDelete (wtRun (initWM cfg) ops) wtID g).1.worktrees.find?
      (fun e => e.1 == wtID)) = none := by
  obtain ⟨e, hfind⟩ := Option.isSome_iff_exists.mp h
  have hmem : e ∈ (wtRun (initWM cfg) ops).worktrees :=
    List.mem_of_find?_eq_some hfind
  obtain ⟨c, hcmem, hcp⟩ := cacheInv_run cfg ops e hmem
  have hcfind : ((wtRun (initWM cfg) ops).repoCache.find?
      (fun c => c.1 == e.2.projectID)).isSome := by
    rw [List.find?_isSome]
    exact ⟨c, hcmem, by simp [hcp]⟩
  have hd := wtDelete_found_eq g hfind hcfind
  rw [hd]
  refine ⟨rfl, rfl, ?_⟩
  rw [List.find?_eq_none]
  intro x hx
  have hx2 := (List.mem_filter.mp hx).2
  simp only [decide_eq_true_eq] at hx2
  simpa using hx2

/-- C7 witness: on the concrete one-worktree trace, Delete with a failing
git removal still returns nil and leaves no record with that id. -/
theorem c7_delete_always_unregisters_witness :
    (wtDelete (wtRun (initWM wcfg) w1Trace) "w1" false).2 = Except.ok () ∧
    ((wtDelete (wtRun (initWM wcfg) w1Trace) "w1" false).1.worktrees.find?
      (fun e => e.1 == "w1")) = none := by
  have h := c7_delete_always_unregisters wcfg w1Trace "w1" false (by decide)
  exact ⟨h.1, h.2.2⟩
